import Mathlib

/-!
# Verification of the DocuRender OCR pipeline

A shallow embedding, in Lean 4, of the page-processing pipeline of the
DocuRender repository (`services/geminiService.ts` / `ocrService.ts`,
`App.tsx`, `types.ts`).  Network calls are modelled as oracles
(`Nat → FetchResult`, attempt index ↦ response), the JavaScript event loop
as explicit traces, and JavaScript strings as `List Char` / `String`.

Section guide:
* character/string helpers mirroring the JS regex operations used by the code;
* the table split `rawOcrText.split(/(<table[^>]*>[\s\S]*?<\/table>)/i)`;
* the OCR caller `callOcrModel` with its retry/backoff loop;
* the dead helper `cleanOcrNoise`;
* the restoration caller `callLayoutRestorationModel`;
* the per-page orchestration in `processDocument`;
* `reconstructContent`, `parsePageRange`, the `processFile` catch handler;
* a trace model of the restoration-task join in `processDocument`;
* one theorem per claim, with witnesses and counterexamples.
-/

/-! ## Character and string helpers -/

/-- Consume the literal `pat` from the front of `s`, case-insensitively
(the JS `/i` flag; all patterns used by the source are ASCII).
Returns the remaining input on success. -/
def dropLitCI : List Char → List Char → Option (List Char)
  | [], s => some s
  | _ :: _, [] => none
  | p :: ps, c :: cs => if p.toLower = c.toLower then dropLitCI ps cs else none

/-- Consume the literal `pat` from the front of `s`, case-sensitively. -/
def dropLit : List Char → List Char → Option (List Char)
  | [], s => some s
  | _ :: _, [] => none
  | p :: ps, c :: cs => if p = c then dropLit ps cs else none

/-- Drop a leading whitespace run (the JS `\s*` on common whitespace). -/
def dropWsRun : List Char → List Char
  | [] => []
  | c :: cs => if c.isWhitespace then dropWsRun cs else c :: cs

/-- Substring test: does `pat` occur (case-sensitively) anywhere in `s`?
This is JS `String.prototype.includes`. -/
def hasSub (s pat : List Char) : Bool :=
  if (dropLit pat s).isSome then true
  else match s with
    | [] => false
    | _ :: cs => hasSub cs pat

/-- `/<table/i.test s` — the table-presence probe used by `processDocument`:
a case-insensitive occurrence of `<table` anywhere in `s`. -/
def containsTableCI (s : String) : Bool :=
  hasSub (s.data.map Char.toLower) "<table".data

/-- `part.match(/^<table/i)` — the segment classifier used inside
`callLayoutRestorationModel`: does `part` begin with `<table`, ignoring case? -/
def startsWithTableCI (part : String) : Bool :=
  (dropLitCI "<table".data part.data).isSome

theorem dropLitCI_eq_drop {p s r : List Char} (h : dropLitCI p s = some r) :
    r = s.drop p.length ∧ p.length ≤ s.length := by
  induction p generalizing s r with
  | nil => simp [dropLitCI] at h; simp [h]
  | cons p ps ih =>
    cases s with
    | nil => simp [dropLitCI] at h
    | cons c cs =>
      simp only [dropLitCI] at h
      split at h
      · obtain ⟨h1, h2⟩ := ih h
        exact ⟨h1, by simpa using Nat.succ_le_succ h2⟩
      · exact absurd h (by simp)

theorem dropLitCI_take_append {p s r : List Char} (h : dropLitCI p s = some r)
    (t : List Char) : dropLitCI p (s.take p.length ++ t) = some t := by
  induction p generalizing s t with
  | nil => simp [dropLitCI]
  | cons p ps ih =>
    cases s with
    | nil => simp [dropLitCI] at h
    | cons c cs =>
      simp only [dropLitCI] at h
      by_cases hc : p.toLower = c.toLower
      · rw [if_pos hc] at h
        simp [dropLitCI, hc, ih h t]
      · rw [if_neg hc] at h
        exact absurd h (by simp)

theorem dropLit_eq_drop {p s r : List Char} (h : dropLit p s = some r) :
    r = s.drop p.length ∧ p.length ≤ s.length := by
  induction p generalizing s r with
  | nil => simp [dropLit] at h; simp [h]
  | cons p ps ih =>
    cases s with
    | nil => simp [dropLit] at h
    | cons c cs =>
      simp only [dropLit] at h
      split at h
      · obtain ⟨h1, h2⟩ := ih h
        exact ⟨h1, by simpa using Nat.succ_le_succ h2⟩
      · exact absurd h (by simp)

/-- Failure of a case-insensitive literal match survives truncation of the
input: if `pat` does not match at the front of `s`, it does not match at the
front of any `s.take n` either. -/
theorem dropLitCI_none_take {p s : List Char} (h : dropLitCI p s = none)
    (n : Nat) : dropLitCI p (s.take n) = none := by
  induction p generalizing s n with
  | nil => simp [dropLitCI] at h
  | cons p ps ih =>
    cases s with
    | nil => cases n <;> simp [dropLitCI]
    | cons c cs =>
      cases n with
      | zero => simp [dropLitCI]
      | succ n =>
        simp only [dropLitCI] at h
        by_cases hc : p.toLower = c.toLower
        · rw [if_pos hc] at h
          simp [dropLitCI, hc, ih h n]
        · simp [dropLitCI, hc]

/-! ## The table split

`geminiService.ts` line 219:
`const parts = rawOcrText.split(/(<table[^>]*>[\s\S]*?<\/table>)/i);`

A match is: the literal `<table` (case-insensitive), then a maximal run of
non-`>` characters followed by `>`, then the *shortest* body such that the
literal `</table>` (case-insensitive) follows.  JS `split` with a capture
group interleaves the text between matches with the captured matches. -/

/-- `<table` as characters. -/
def openTagChars : List Char := ['<', 't', 'a', 'b', 'l', 'e']

/-- `</table>` as characters. -/
def closeTagChars : List Char := ['<', '/', 't', 'a', 'b', 'l', 'e', '>']

/-- `[^>]*>`: split `s` into the consumed span (up to and including the first
`>`) and the rest; `none` when `s` has no `>`. -/
def splitAtGt : List Char → Option (List Char × List Char)
  | [] => none
  | c :: cs =>
    if c = '>' then some ([c], cs)
    else match splitAtGt cs with
      | some (pre, rest) => some (c :: pre, rest)
      | none => none

/-- `[\s\S]*?<\/table>` with `/i`: split `s` at the earliest case-insensitive
occurrence of `</table>` into (body + close tag, rest); `none` when there is
no such occurrence. -/
def findCloseCI : List Char → Option (List Char × List Char)
  | [] => none
  | c :: cs =>
    if (dropLitCI closeTagChars (c :: cs)).isSome then
      some ((c :: cs).take 8, (c :: cs).drop 8)
    else match findCloseCI cs with
      | some (bc, rest) => some (c :: bc, rest)
      | none => none

/-- Attempt the regex match at the very start of `s`; on success returns
(matched span, rest of input). -/
def tryMatchAt (s : List Char) : Option (List Char × List Char) :=
  match dropLitCI openTagChars s with
  | none => none
  | some afterOpen =>
    match splitAtGt afterOpen with
    | none => none
    | some (attrs, afterGt) =>
      match findCloseCI afterGt with
      | none => none
      | some (bodyClose, rest) => some (s.take 6 ++ attrs ++ bodyClose, rest)

/-- Leftmost match of the table regex in `s`: returns
(text before the match, matched span, rest). -/
def findMatch : List Char → Option (List Char × List Char × List Char)
  | [] => none
  | c :: cs =>
    match tryMatchAt (c :: cs) with
    | some (m, rest) => some ([], m, rest)
    | none =>
      match findMatch cs with
      | some (pre, m, rest) => some (c :: pre, m, rest)
      | none => none

theorem splitAtGt_append {s pre rest : List Char}
    (h : splitAtGt s = some (pre, rest)) : pre ++ rest = s := by
  induction s generalizing pre rest with
  | nil => simp [splitAtGt] at h
  | cons c cs ih =>
    simp only [splitAtGt] at h
    by_cases hc : c = '>'
    · rw [if_pos hc] at h
      simp only [Option.some.injEq, Prod.mk.injEq] at h
      simp [← h.1, ← h.2]
    · rw [if_neg hc] at h
      cases hgt : splitAtGt cs with
      | none => rw [hgt] at h; simp at h
      | some pr =>
        rw [hgt] at h
        obtain ⟨pre', rest'⟩ := pr
        simp only [Option.some.injEq, Prod.mk.injEq] at h
        have := ih hgt
        rw [← h.1, ← h.2]
        simpa using this

theorem splitAtGt_again {s pre rest : List Char}
    (h : splitAtGt s = some (pre, rest)) (t : List Char) :
    splitAtGt (pre ++ t) = some (pre, t) := by
  induction s generalizing pre rest with
  | nil => simp [splitAtGt] at h
  | cons c cs ih =>
    simp only [splitAtGt] at h
    by_cases hc : c = '>'
    · rw [if_pos hc] at h
      simp only [Option.some.injEq, Prod.mk.injEq] at h
      rw [← h.1]
      simp [splitAtGt, hc]
    · rw [if_neg hc] at h
      cases hgt : splitAtGt cs with
      | none => rw [hgt] at h; simp at h
      | some pr =>
        rw [hgt] at h
        obtain ⟨pre', rest'⟩ := pr
        simp only [Option.some.injEq, Prod.mk.injEq] at h
        rw [← h.1]
        have hx := ih hgt
        simp [splitAtGt, hc, hx]

theorem findCloseCI_append {s bc rest : List Char}
    (h : findCloseCI s = some (bc, rest)) : bc ++ rest = s := by
  induction s generalizing bc rest with
  | nil => simp [findCloseCI] at h
  | cons c cs ih =>
    simp only [findCloseCI] at h
    by_cases hcl : (dropLitCI closeTagChars (c :: cs)).isSome
    · rw [if_pos hcl] at h
      simp only [Option.some.injEq, Prod.mk.injEq] at h
      rw [← h.1, ← h.2]
      exact List.take_append_drop 8 (c :: cs)
    · rw [if_neg hcl] at h
      cases hf : findCloseCI cs with
      | none => rw [hf] at h; simp at h
      | some pr =>
        rw [hf] at h
        obtain ⟨bc', rest'⟩ := pr
        simp only [Option.some.injEq, Prod.mk.injEq] at h
        have := ih hf
        rw [← h.1, ← h.2]
        simpa using this

theorem findCloseCI_self {s bc rest : List Char}
    (h : findCloseCI s = some (bc, rest)) : findCloseCI bc = some (bc, []) := by
  induction s generalizing bc rest with
  | nil => simp [findCloseCI] at h
  | cons c cs ih =>
    simp only [findCloseCI] at h
    by_cases hcl : (dropLitCI closeTagChars (c :: cs)).isSome
    · rw [if_pos hcl] at h
      simp only [Option.some.injEq, Prod.mk.injEq] at h
      obtain ⟨r, hdrop⟩ := Option.isSome_iff_exists.mp hcl
      have htake := dropLitCI_take_append hdrop []
      rw [List.append_nil] at htake
      have hlen8 : closeTagChars.length = 8 := rfl
      rw [hlen8] at htake
      rw [← h.1]
      have hlen : ((c :: cs).take 8).length ≤ 8 := by
        simp [List.length_take]
      have hne : (c :: cs).take 8 = c :: cs.take 7 := rfl
      rw [hne] at htake ⊢
      have hlen' : (c :: cs.take 7).length ≤ 8 := by rw [← hne]; exact hlen
      simp only [findCloseCI]
      rw [if_pos (by rw [htake]; simp)]
      rw [List.take_of_length_le hlen', List.drop_eq_nil_of_le hlen']
    · rw [if_neg hcl] at h
      cases hf : findCloseCI cs with
      | none => rw [hf] at h; simp at h
      | some pr =>
        rw [hf] at h
        obtain ⟨bc', rest'⟩ := pr
        simp only [Option.some.injEq, Prod.mk.injEq] at h
        have hself := ih hf
        rw [← h.1]
        -- `c :: bc'` is a truncation of `c :: cs`, on which the close tag
        -- did not match at the head, so it does not match here either.
        have happ : bc' ++ rest' = cs := findCloseCI_append hf
        have hnone : dropLitCI closeTagChars (c :: cs) = none := by
          cases hd : dropLitCI closeTagChars (c :: cs) with
          | none => rfl
          | some r => rw [hd] at hcl; simp at hcl
        have htrunc : dropLitCI closeTagChars ((c :: cs).take (1 + bc'.length)) = none :=
          dropLitCI_none_take hnone _
        have htk : (c :: cs).take (1 + bc'.length) = c :: bc' := by
          rw [← happ, Nat.add_comm, List.take_succ_cons, List.take_left]
        rw [htk] at htrunc
        simp only [findCloseCI]
        rw [if_neg (by rw [htrunc]; simp), hself]

theorem tryMatchAt_eq {s m rest : List Char} (h : tryMatchAt s = some (m, rest)) :
    ∃ attrs bodyClose afterOpen,
      dropLitCI openTagChars s = some afterOpen ∧
      splitAtGt afterOpen = some (attrs, bodyClose ++ rest) ∧
      findCloseCI (bodyClose ++ rest) = some (bodyClose, rest) ∧
      m = s.take 6 ++ attrs ++ bodyClose := by
  cases hop : dropLitCI openTagChars s with
  | none => simp [tryMatchAt, hop] at h
  | some afterOpen =>
    cases hgt : splitAtGt afterOpen with
    | none => simp [tryMatchAt, hop, hgt] at h
    | some pr =>
      obtain ⟨attrs, afterGt⟩ := pr
      cases hcl : findCloseCI afterGt with
      | none => simp [tryMatchAt, hop, hgt, hcl] at h
      | some pr2 =>
        obtain ⟨bodyClose, rest'⟩ := pr2
        simp only [tryMatchAt, hop, hgt, hcl, Option.some.injEq, Prod.mk.injEq] at h
        obtain ⟨hm, hrest⟩ := h
        subst hrest
        have happ := findCloseCI_append hcl
        refine ⟨attrs, bodyClose, afterOpen, rfl, ?_, ?_, hm.symm⟩
        · rw [happ]; exact hgt
        · rw [happ]; exact hcl

theorem tryMatchAt_append {s m rest : List Char} (h : tryMatchAt s = some (m, rest)) :
    m ++ rest = s := by
  obtain ⟨attrs, bodyClose, afterOpen, hop, hgt, hcl, hm⟩ := tryMatchAt_eq h
  have h1 : afterOpen = s.drop openTagChars.length ∧ openTagChars.length ≤ s.length :=
    dropLitCI_eq_drop hop
  have h2 : attrs ++ (bodyClose ++ rest) = afterOpen := splitAtGt_append hgt
  have h6 : openTagChars.length = 6 := rfl
  rw [hm]
  calc (s.take 6 ++ attrs ++ bodyClose) ++ rest
      = s.take 6 ++ (attrs ++ (bodyClose ++ rest)) := by simp
    _ = s.take 6 ++ afterOpen := by rw [h2]
    _ = s.take 6 ++ s.drop 6 := by rw [h1.1, h6]
    _ = s := List.take_append_drop 6 s

theorem tryMatchAt_ne_nil {s m rest : List Char} (h : tryMatchAt s = some (m, rest)) :
    m ≠ [] := by
  obtain ⟨attrs, bodyClose, afterOpen, hop, hgt, hcl, hm⟩ := tryMatchAt_eq h
  have h1 := dropLitCI_eq_drop hop
  have h6 : openTagChars.length = 6 := rfl
  have hlen : 6 ≤ s.length := by rw [← h6]; exact h1.2
  have htklen : (s.take 6).length = 6 := by simp [List.length_take]; omega
  intro hnil
  rw [hm] at hnil
  have htknil : s.take 6 = [] := by
    cases htk : s.take 6 with
    | nil => rfl
    | cons d ds => rw [htk] at hnil; simp at hnil
  rw [htknil] at htklen
  simp at htklen

/-- A matched span re-matches itself exactly: running the matcher on the
span alone consumes all of it.  This is what makes the captured group in the
split "exactly a `<table>...</table>` block". -/
theorem tryMatchAt_self {s m rest : List Char} (h : tryMatchAt s = some (m, rest)) :
    tryMatchAt m = some (m, []) := by
  obtain ⟨attrs, bodyClose, afterOpen, hop, hgt, hcl, hm⟩ := tryMatchAt_eq h
  have h6 : openTagChars.length = 6 := rfl
  have hop' : dropLitCI openTagChars (s.take 6 ++ (attrs ++ bodyClose)) = some (attrs ++ bodyClose) := by
    have := dropLitCI_take_append hop (attrs ++ bodyClose)
    rwa [h6] at this
  have hgt' : splitAtGt (attrs ++ bodyClose) = some (attrs, bodyClose) :=
    splitAtGt_again hgt bodyClose
  have hcl' : findCloseCI bodyClose = some (bodyClose, []) := findCloseCI_self hcl
  have hm' : m = s.take 6 ++ (attrs ++ bodyClose) := by rw [hm]; simp
  have htk : (s.take 6 ++ (attrs ++ bodyClose)).take 6 = s.take 6 := by
    have hlen : (s.take 6).length = 6 := by
      have h1 := dropLitCI_eq_drop hop
      have hlen6 : 6 ≤ s.length := by rw [← h6]; exact h1.2
      simp [List.length_take]; omega
    rw [List.take_append_of_le_length (le_of_eq hlen.symm), List.take_take]
    simp
  rw [hm']
  simp only [tryMatchAt, hop', hgt', hcl', htk, Option.some.injEq, Prod.mk.injEq]
  simp

theorem findMatch_append {s pre m rest : List Char}
    (h : findMatch s = some (pre, m, rest)) : pre ++ m ++ rest = s := by
  induction s generalizing pre m rest with
  | nil => simp [findMatch] at h
  | cons c cs ih =>
    cases htm : tryMatchAt (c :: cs) with
    | some pr =>
      obtain ⟨m', rest'⟩ := pr
      simp only [findMatch, htm, Option.some.injEq, Prod.mk.injEq] at h
      obtain ⟨h1, h2, h3⟩ := h
      rw [← h1, ← h2, ← h3]
      simpa using tryMatchAt_append htm
    | none =>
      cases hfm : findMatch cs with
      | none => simp [findMatch, htm, hfm] at h
      | some pr =>
        obtain ⟨pre', m', rest'⟩ := pr
        simp only [findMatch, htm, hfm, Option.some.injEq, Prod.mk.injEq] at h
        obtain ⟨h1, h2, h3⟩ := h
        rw [← h1, ← h2, ← h3]
        simpa using ih hfm

theorem findMatch_self {s pre m rest : List Char}
    (h : findMatch s = some (pre, m, rest)) : tryMatchAt m = some (m, []) := by
  induction s generalizing pre m rest with
  | nil => simp [findMatch] at h
  | cons c cs ih =>
    cases htm : tryMatchAt (c :: cs) with
    | some pr =>
      obtain ⟨m', rest'⟩ := pr
      simp only [findMatch, htm, Option.some.injEq, Prod.mk.injEq] at h
      obtain ⟨_, h2, _⟩ := h
      rw [← h2]
      exact tryMatchAt_self htm
    | none =>
      cases hfm : findMatch cs with
      | none => simp [findMatch, htm, hfm] at h
      | some pr =>
        obtain ⟨pre', m', rest'⟩ := pr
        simp only [findMatch, htm, hfm, Option.some.injEq, Prod.mk.injEq] at h
        obtain ⟨_, h2, _⟩ := h
        rw [← h2]
        exact ih hfm

/-- `String.prototype.split` with one capture group, written with explicit
fuel (the pieces of text between matches interleaved with the captured
matches).  `s.length + 1` fuel always suffices; on fuel exhaustion the
remaining input is returned as a single piece, so concatenation is preserved
unconditionally. -/
def splitTablesF : Nat → List Char → List (List Char)
  | 0, s => [s]
  | fuel + 1, s =>
    match findMatch s with
    | none => [s]
    | some (pre, m, rest) => pre :: m :: splitTablesF fuel rest

/-- `rawOcrText.split(/(<table[^>]*>[\s\S]*?<\/table>)/i)` over characters. -/
def splitTables (s : List Char) : List (List Char) :=
  splitTablesF (s.length + 1) s

/-- The same split, on strings (as used by `callLayoutRestorationModel`). -/
def segmentParts (s : String) : List String :=
  (splitTables s.data).map (fun l => String.mk l)

theorem splitTablesF_flatten (fuel : Nat) (s : List Char) :
    (splitTablesF fuel s).flatten = s := by
  induction fuel generalizing s with
  | zero => simp [splitTablesF]
  | succ fuel ih =>
    cases hfm : findMatch s with
    | none => simp [splitTablesF, hfm]
    | some pr =>
      obtain ⟨pre, m, rest⟩ := pr
      simp only [splitTablesF, hfm, List.flatten_cons]
      rw [ih rest]
      have := findMatch_append hfm
      simpa using this

/-- Concatenating the split pieces reproduces the input, byte for byte. -/
theorem splitTables_flatten (s : List Char) : (splitTables s).flatten = s :=
  splitTablesF_flatten _ s

/-- With no match, the split returns the input as a single piece. -/
theorem splitTables_of_none {s : List Char} (h : findMatch s = none) :
    splitTables s = [s] := by
  simp only [splitTables, splitTablesF, h]

/-- With a match, the split starts with the pre-match text and the match. -/
theorem splitTables_of_some {s pre m rest : List Char}
    (h : findMatch s = some (pre, m, rest)) :
    splitTables s = pre :: m :: splitTablesF s.length rest := by
  simp only [splitTables, splitTablesF, h]

/-- Every odd-indexed piece of the split is a captured table block that
re-matches itself exactly. -/
theorem splitTablesF_odd_block (fuel : Nat) (s : List Char) :
    ∀ i m, (splitTablesF fuel s)[i]? = some m → i % 2 = 1 →
      tryMatchAt m = some (m, []) := by
  induction fuel generalizing s with
  | zero =>
    intro i m hget hodd
    simp only [splitTablesF] at hget
    match i, hodd with
    | j + 1, _ => simp at hget
  | succ fuel ih =>
    intro i m hget hodd
    cases hfm : findMatch s with
    | none =>
      simp only [splitTablesF, hfm] at hget
      match i, hodd with
      | j + 1, _ => simp at hget
    | some pr =>
      obtain ⟨pre, m', rest⟩ := pr
      simp only [splitTablesF, hfm] at hget
      match i, hodd with
      | 1, _ =>
        simp only [List.getElem?_cons_succ, List.getElem?_cons_zero, Option.some.injEq] at hget
        rw [← hget]
        exact findMatch_self hfm
      | (j + 2), hodd =>
        simp only [List.getElem?_cons_succ] at hget
        have hj : j % 2 = 1 := by omega
        exact ih rest j m hget hj

theorem splitTables_odd_block (s : List Char) :
    ∀ i m, (splitTables s)[i]? = some m → i % 2 = 1 →
      tryMatchAt m = some (m, []) :=
  splitTablesF_odd_block _ s

/-! ## Markdown fence stripping and whitespace trimming -/

/-- Both ends trimmed of whitespace — JS `String.prototype.trim`. -/
def trimChars (l : List Char) : List Char :=
  (dropWsRun (dropWsRun l).reverse).reverse

/-- `.replace(/^```markdown\s*/, '')` (case-sensitive, anchored). -/
def stripOcrStart1 (l : List Char) : List Char :=
  match dropLit "```markdown".data l with
  | some r => dropWsRun r
  | none => l

/-- `.replace(/^```\s*/, '')` (case-sensitive, anchored). -/
def stripOcrStart2 (l : List Char) : List Char :=
  match dropLit "```".data l with
  | some r => dropWsRun r
  | none => l

/-- `.replace(/\s*```$/, '')`: strip a trailing fence and the whitespace run
immediately before it. -/
def dropEndFence (l : List Char) : List Char :=
  match dropLit "```".data l.reverse with
  | some r => (dropWsRun r).reverse
  | none => l

/-- `geminiService.ts` line 184, applied to the OCR response content:
`content.replace(/^```markdown\s*/, '').replace(/^```\s*/, '').replace(/\s*```$/, '')`. -/
def stripOcrFences (content : String) : String :=
  String.mk (dropEndFence (stripOcrStart2 (stripOcrStart1 content.data)))

/-- The optional `(markdown|html|xml)` group of the restoration cleaner,
alternatives tried in source order, case-insensitively. -/
def dropFenceWordCI (l : List Char) : List Char :=
  match dropLitCI "markdown".data l with
  | some r => r
  | none =>
    match dropLitCI "html".data l with
    | some r => r
    | none =>
      match dropLitCI "xml".data l with
      | some r => r
      | none => l

/-- `.replace(/^```(markdown|html|xml)?\s*/i, '')`. -/
def cleanRestoredStart (l : List Char) : List Char :=
  match dropLit "```".data l with
  | some r => dropWsRun (dropFenceWordCI r)
  | none => l

/-- `geminiService.ts` lines 297-300: the restoration response content is
cleaned of Markdown wrappers and trimmed. -/
def cleanRestoredContent (content : String) : String :=
  String.mk (trimChars (dropEndFence (cleanRestoredStart content.data)))

/-! ## The OCR caller (`callOcrModel`, `geminiService.ts` lines 132-204)

Each `fetch` is an oracle response: a 2xx body, a non-2xx HTTP status with an
optional `error.message` body field, or a network-level failure.  The
`AbortSignal` is modelled by the attempt index from which `signal.aborted`
is true (`none` = never aborted). -/

/-- One `fetch` outcome, as seen by one loop iteration of `callOcrModel`. -/
inductive FetchResult where
  | ok (content : String)
  | httpErr (status : Nat) (bodyMsg : Option String)
  | netErr (msg : String)
deriving DecidableEq

/-- JS `a || b` on an optional string (`undefined` and `""` are falsy). -/
def jsOrStr (a : Option String) (b : String) : String :=
  match a with
  | none => b
  | some m => if m = "" then b else m

/-- The `Error.message` thrown for a failed attempt (lines 175-179):
401 → "Invalid API Key"; 429 → "API Error: 429 Rate Limit Exceeded";
other statuses → `err.error?.message || "API Error: <status>"`;
network errors carry their own message. -/
def fetchErrMsg : FetchResult → String
  | .ok _ => ""
  | .httpErr 401 _ => "Invalid API Key"
  | .httpErr 429 _ => "API Error: 429 Rate Limit Exceeded"
  | .httpErr status body => jsOrStr body ("API Error: " ++ toString status)
  | .netErr msg => msg

/-- Is this fetch outcome a failure (any thrown error)? -/
def isFetchErr : FetchResult → Bool
  | .ok _ => false
  | _ => true

/-- `error.message.includes('429')` (line 193). -/
def contains429 (msg : String) : Bool :=
  hasSub msg.data "429".data

/-- Line 198: `isRateLimit ? 5000 * (i + 1) : 1000 * Math.pow(2, i)`. -/
def ocrWait (msg : String) (i : Nat) : Nat :=
  if contains429 msg then 5000 * (i + 1) else 1000 * 2 ^ i

/-- Is `signal.aborted` true at the start of attempt `i`? -/
def abortNow : Option Nat → Nat → Bool
  | none, _ => false
  | some a, i => decide (a ≤ i)

/-- The outcome of a whole `callOcrModel` run: a returned content string, a
thrown last error, or the thrown "Process aborted by user". -/
inductive CallResult where
  | content (s : String)
  | failed (msg : String)
  | aborted
deriving DecidableEq

/-- A `callOcrModel` run together with its observable retry behaviour:
the number of `fetch` attempts issued and the backoff waits performed. -/
structure OcrRun where
  result : CallResult
  attempts : Nat
  waits : List Nat
deriving DecidableEq

/-- The retry loop of `callOcrModel` (lines 147-202), fuelled by the number
of remaining iterations (`retries - i`; the fuel-0 row is the fall-through
`throw lastError` after the loop, reachable only when `retries = 0`). -/
def ocrLoopF (resp : Nat → FetchResult) (abortAt : Option Nat) (retries : Nat) :
    Nat → Nat → List Nat → OcrRun
  | 0, i, waits => ⟨.failed "", i, waits⟩
  | fuel + 1, i, waits =>
    if i < retries then
      if abortNow abortAt i then ⟨.aborted, i, waits⟩
      else
        match resp i with
        | .ok content => ⟨.content (stripOcrFences content), i + 1, waits⟩
        | r =>
          if i + 1 < retries then
            ocrLoopF resp abortAt retries fuel (i + 1) (waits ++ [ocrWait (fetchErrMsg r) i])
          else ⟨.failed (fetchErrMsg r), i + 1, waits⟩
    else ⟨.failed "", i, waits⟩

/-- `callOcrModel` with its default/actual budget `retries = 5`. -/
def callOcrModel (resp : Nat → FetchResult) (abortAt : Option Nat) : OcrRun :=
  ocrLoopF resp abortAt 5 5 0 []

/-! ## `cleanOcrNoise` (`geminiService.ts` lines 116-129)

Defined in the source as an "INPUT NOISE CLEANING" helper but never invoked
anywhere in the repository. -/

/-- Text after the earliest occurrence of the close literal. -/
def findLitClose (closePat : List Char) : List Char → Option (List Char)
  | [] => none
  | c :: cs =>
    match dropLit closePat (c :: cs) with
    | some rest => some rest
    | none => findLitClose closePat cs

/-- Leftmost non-greedy `open ... close` block: text before it, text after it. -/
def findLitBlock (openPat closePat : List Char) : List Char → Option (List Char × List Char)
  | [] => none
  | c :: cs =>
    match dropLit openPat (c :: cs) with
    | some afterOpen =>
      match findLitClose closePat afterOpen with
      | some rest => some ([], rest)
      | none =>
        match findLitBlock openPat closePat cs with
        | some (pre, rest) => some (c :: pre, rest)
        | none => none
    | none =>
      match findLitBlock openPat closePat cs with
      | some (pre, rest) => some (c :: pre, rest)
      | none => none

/-- Remove every non-greedy `open ... close` block (global, case-sensitive,
dot-matches-newline), continuing after each removal — JS
`.replace(/open.*?close/gs, '')` for literal delimiters. -/
def removeBlocks (openPat closePat : List Char) (fuel : Nat) (s : List Char) : List Char :=
  match fuel with
  | 0 => s
  | fuel + 1 =>
    match findLitBlock openPat closePat s with
    | none => s
    | some (pre, rest) => pre ++ removeBlocks openPat closePat fuel rest

/-- One global pass removing every occurrence of either literal, alternatives
tried in order at each position — JS `.replace(/(p1|p2)/g, '')` for literals. -/
def removeAlt (p1 p2 : List Char) (fuel : Nat) (s : List Char) : List Char :=
  match fuel, s with
  | 0, s => s
  | _, [] => []
  | fuel + 1, c :: cs =>
    match dropLit p1 (c :: cs) with
    | some rest => removeAlt p1 p2 fuel rest
    | none =>
      match dropLit p2 (c :: cs) with
      | some rest => removeAlt p1 p2 fuel rest
      | none => c :: removeAlt p1 p2 fuel cs

/-- `cleanOcrNoise` (lines 116-129): strips `<|det|>...<|/det|>` blocks (raw
and HTML-escaped), `<|box|>`/`<|quad|>` markers and their closers, then
trims.  Dead code in the repository: no call site exists. -/
def cleanOcrNoise (text : String) : String :=
  if text = "" then ""
  else
    let l1 := removeBlocks "<|det|>".data "<|/det|>".data (text.data.length + 1) text.data
    let l2 := removeBlocks "&lt;|det|&gt;".data "&lt;|/det|&gt;".data (l1.length + 1) l1
    let l3 := removeAlt "<|box|>".data "<|quad|>".data (l2.length + 1) l2
    let l4 := removeAlt "<|/box|>".data "<|/quad|>".data (l3.length + 1) l3
    String.mk (trimChars l4)

/-! ## The restoration caller (`callLayoutRestorationModel`, lines 207-349)

Each table segment has its own retry budget.  The network is an oracle per
(segment index, attempt index).  The chain-of-reasoning log accumulated into
`fullReasoningLog` is write-only (never read by control flow) and is not
modelled. -/

/-- One restoration `fetch` outcome for one attempt: the first choice's
message content, or a thrown error message. -/
inductive RestoreResp where
  | ok (content : String)
  | err (msg : String)
deriving DecidableEq

/-- Is this restoration outcome a failure? -/
def isErrResp : RestoreResp → Bool
  | .ok _ => false
  | .err _ => true

/-- `[\s-]*\|` — trailing part of the Markdown-table probe. -/
def mdTail : List Char → Bool
  | [] => false
  | c :: cs =>
    if c = '|' then true
    else if c.isWhitespace || c = '-' then mdTail cs
    else false

/-- `---[\s-]*\|`. -/
def mdDashes (l : List Char) : Bool :=
  match dropLit "---".data l with
  | some r => mdTail r
  | none => false

/-- `:?---[\s-]*\|`. -/
def mdColon (l : List Char) : Bool :=
  mdDashes l ||
    (match l with
     | ':' :: cs => mdDashes cs
     | _ => false)

/-- `[\s-]*:?---[\s-]*\|` with full backtracking over the leading star. -/
def mdAfterBar : List Char → Bool
  | [] => mdColon []
  | c :: cs =>
    mdColon (c :: cs) ||
      (if c.isWhitespace || c = '-' then mdAfterBar cs else false)

/-- `/\|[\s-]*:?---[\s-]*\|/.test(finalContent)` (line 306). -/
def mdScan : List Char → Bool
  | [] => false
  | c :: cs => ((c == '|') && mdAfterBar cs) || mdScan cs

/-- Does the cleaned restoration output contain a Markdown table rule row? -/
def hasMdTable (s : String) : Bool := mdScan s.data

/-- Per-segment outcome of the restoration retry loop: the resolved text,
how many `fetch` requests were issued, the keep/convert classification
(`some true` = output still a table, `some false` = converted to text,
`none` = no classification, i.e. fallback or a non-table part), and whether
the loop threw the abort error. -/
structure SegOutcome where
  text : String
  requests : Nat
  kept : Option Bool
  aborted : Bool
deriving DecidableEq

/-- The per-segment retry loop (lines 249-336), fuelled like `ocrLoopF`;
the fuel-0 row is the fall-through `return tableHtml` at line 336. -/
def segLoopF (resp : Nat → RestoreResp) (abortAt : Option Nat) (retries : Nat)
    (tableHtml : String) : Nat → Nat → SegOutcome
  | 0, i => { text := tableHtml, requests := i, kept := none, aborted := false }
  | fuel + 1, i =>
    if i < retries then
      if abortNow abortAt i then { text := "", requests := i, kept := none, aborted := true }
      else
        match resp i with
        | .ok content =>
          let fc := cleanRestoredContent content
          { text := fc, requests := i + 1,
            kept := some (containsTableCI fc || hasMdTable fc), aborted := false }
        | .err _ =>
          if i = retries - 1 then
            { text := tableHtml, requests := i + 1, kept := none, aborted := false }
          else segLoopF resp abortAt retries tableHtml fuel (i + 1)
    else { text := tableHtml, requests := i, kept := none, aborted := false }

/-- One processed part of the split (lines 234-337): a part that does not
begin with `<table` (case-insensitive) is returned as is; a part that does is
driven through the retry loop with budget 3. -/
def processSegPart (oracle : Nat → Nat → RestoreResp) (ip : Nat × String) : SegOutcome :=
  if startsWithTableCI ip.2 then segLoopF (oracle ip.1) none 3 ip.2 3 0
  else { text := ip.2, requests := 0, kept := none, aborted := false }

/-- The observable result of `callLayoutRestorationModel`: the reassembled
content, the `hasRealTable` / `cleaned` flags, and (model instrumentation)
the total number of restoration network requests issued. -/
structure RestoreOutcome where
  content : String
  hasRealTable : Bool
  cleaned : Bool
  requests : Nat
deriving DecidableEq

/-- `callLayoutRestorationModel` (lines 207-349) without cancellation:
split the raw OCR text on table blocks; if the split has a single part,
return the text unchanged with no network call; otherwise process every part
(concurrently in the source; pure here), reassemble with `join('')`, and
report whether any segment was kept as a table / converted to text. -/
def callLayoutRestorationModel (oracle : Nat → Nat → RestoreResp)
    (rawOcrText : String) : RestoreOutcome :=
  let parts := segmentParts rawOcrText
  if parts.length ≤ 1 then
    { content := rawOcrText, hasRealTable := false, cleaned := false, requests := 0 }
  else
    let outs := parts.enum.map (processSegPart oracle)
    { content := String.join (outs.map SegOutcome.text),
      hasRealTable := outs.any (fun o => o.kept == some true),
      cleaned := outs.any (fun o => o.kept == some false),
      requests := (outs.map SegOutcome.requests).sum }

/-! ## Per-page orchestration (`processDocument`, lines 429-515)

The granular `onPageUpdate` patches emitted for one page after its OCR call
succeeded, and whether/with how many requests the restoration path ran. -/

/-- `PageData.status` (`types.ts`). -/
inductive PageStatus where
  | pending
  | ocrSuccess
  | restoring
  | complete
  | error
deriving DecidableEq

/-- A `Partial<PageData>` patch as passed to `onPageUpdate`; absent fields
are `none`.  `restored := some none` is an explicit `restored: null`.
(The write-only `modelReasoning` field is not modelled.) -/
structure PagePatch where
  rawOCR : Option String := none
  restored : Option (Option String) := none
  status : Option PageStatus := none
  hasTable : Option Bool := none
  reason : Option String := none
  errorMessage : Option String := none
deriving DecidableEq

/-- Line 449: `{ rawOCR: rawContent, restored: null, status: 'ocr_success' }`. -/
def ocrSuccessPatch (raw : String) : PagePatch :=
  { rawOCR := some raw, restored := some none, status := some .ocrSuccess }

/-- Lines 462-468: the no-table terminal update. -/
def noTablePatch : PagePatch :=
  { status := some .complete, hasTable := some false, reason := some "无表格 (无需重绘)" }

/-- Line 478: `{ status: 'restoring' }`. -/
def restoringPatch : PagePatch :=
  { status := some .restoring }

/-- Lines 485-493: the terminal update after restoration resolves. -/
def restoredPatch (content : String) (hasT cleaned : Bool) : PagePatch :=
  { restored := some (some content), status := some .complete, hasTable := some hasT,
    reason := some (if cleaned then "文档结构已还原" else "表格已保留") }

/-- The per-page run after a successful OCR call. -/
structure PageRun where
  patches : List PagePatch
  requests : Nat
  invokedRestorer : Bool
deriving DecidableEq

/-- Lines 449-504 for one page, given the raw OCR content: publish the raw
text, then either complete immediately (no `<table` occurrence) or run the
background restoration task (status=restoring, then the restored terminal
update). -/
def processPageAfterOcr (raw : String) (oracle : Nat → Nat → RestoreResp) : PageRun :=
  if containsTableCI raw then
    let r := callLayoutRestorationModel oracle raw
    { patches := [ocrSuccessPatch raw, restoringPatch,
                  restoredPatch r.content r.hasRealTable r.cleaned],
      requests := r.requests, invokedRestorer := true }
  else
    { patches := [ocrSuccessPatch raw, noTablePatch], requests := 0, invokedRestorer := false }

/-! ## `reconstructContent` (`App.tsx` lines 244-271) -/

/-- `DocFile.viewMode`. -/
inductive ViewMode where
  | restored
  | raw
deriving DecidableEq

/-- A stored `PageData` record as read by `reconstructContent`.
(`errorMessage` is a plain string: the error path always sets it.) -/
structure PageDataM where
  rawOCR : String
  restored : Option String
  status : PageStatus
  errorMessage : String
deriving DecidableEq

/-- `App.tsx` line 44. -/
def SPLIT_MARKER : String := "<--- Page Split --->"

/-- The page separator used at line 270. -/
def pageSep : String := "\n\n" ++ SPLIT_MARKER ++ "\n\n"

/-- JS `a || b` for strings (`""` is falsy). -/
def jsOrS (a b : String) : String := if a = "" then b else a

/-- The chunk pushed for logical page `i` (lines 252-268): missing record →
`""`; error status → an error banner; restored mode → `restored || rawOCR
|| ""`; raw mode → `rawOCR || ""`. -/
def pageChunk (mode : ViewMode) (i : Nat) (p : Option PageDataM) : String :=
  match p with
  | none => ""
  | some pd =>
    if pd.status = PageStatus.error then
      "> ⚠️ **Page " ++ toString (i + 1) ++ " Error**: " ++ pd.errorMessage
    else
      match mode with
      | .restored => jsOrS (pd.restored.getD "") pd.rawOCR
      | .raw => pd.rawOCR

/-- The `for (let i = 0; i < numPages; i++) chunks.push(...)` loop. -/
def buildChunks (mode : ViewMode) : Nat → List (Option PageDataM) → List String
  | _, [] => []
  | i, p :: ps => pageChunk mode i p :: buildChunks mode (i + 1) ps

/-- `Array.prototype.join(sep)`. -/
def joinSep (sep : String) : List String → String
  | [] => ""
  | [x] => x
  | x :: xs => x ++ sep ++ joinSep sep xs

/-- `reconstructContent` for a file whose `pagesData` exists, with logical
pages contiguous from 0 (the documented invariant): chunks joined by the
page separator. -/
def reconstructContent (mode : ViewMode) (pagesData : List (Option PageDataM)) : String :=
  joinSep pageSep (buildChunks mode 0 pagesData)

/-- Modelled from the spec's words (§3 "Reconstructed Content"): the
per-page text is "restored-if-available-else-raw, or raw exclusively in raw
view mode", where restored counts as available when non-null and non-empty.
Used only to compare the code's `reconstructContent` against the spec. -/
def specPageText (mode : ViewMode) (pd : PageDataM) : String :=
  match mode with
  | .raw => pd.rawOCR
  | .restored =>
    match pd.restored with
    | some r => if r = "" then pd.rawOCR else r
    | none => pd.rawOCR

/-! ## `parsePageRange` (`geminiService.ts` lines 352-381)

JS numbers (IEEE doubles holding parsed decimal literals) are modelled as
decimal fixed-point pairs — mantissa and number of decimal places — whose
value in `ℚ` is `m / 10 ^ e`.  All comparisons the code performs (`Set`
membership, `>=`, `<=`, the numeric sort comparator `a - b`) are by value
and are implemented by cross-multiplied integer comparisons so that concrete
runs evaluate in the kernel.  `Number` returning `NaN` is `none`.  The model
covers decimal literals with optional sign and fraction; it does not model
the hexadecimal/exponent/`Infinity` forms of `Number`, which no claim
touches. -/

/-- A JS number: value `m / 10 ^ e`. -/
structure DecNum where
  m : Int
  e : Nat
deriving DecidableEq

/-- The rational value of a `DecNum`. -/
def DecNum.val (a : DecNum) : ℚ := (a.m : ℚ) / ((10 : ℚ) ^ a.e)

/-- Value-level `<=`, by cross multiplication. -/
def DecNum.leB (a b : DecNum) : Bool :=
  decide (a.m * (10 : Int) ^ b.e ≤ b.m * (10 : Int) ^ a.e)

/-- Value-level equality, by cross multiplication (JS `===` on numbers). -/
def DecNum.eqB (a b : DecNum) : Bool :=
  decide (a.m * (10 : Int) ^ b.e = b.m * (10 : Int) ^ a.e)

/-- The value-level order as a relation (for sorting). -/
def DecNum.le (a b : DecNum) : Prop := a.leB b = true

instance : DecidableRel DecNum.le := fun a b => instDecidableEqBool (a.leB b) true

/-- An integer as a `DecNum`. -/
def DecNum.ofNat (n : Nat) : DecNum := ⟨n, 0⟩

/-- `i + k` for the range loop (`i++` iterated). -/
def DecNum.addNat (a : DecNum) (k : Nat) : DecNum :=
  ⟨a.m + k * (10 : Int) ^ a.e, a.e⟩

theorem DecNum.leB_iff (a b : DecNum) : a.leB b = true ↔ a.val ≤ b.val := by
  rw [DecNum.leB, DecNum.val, DecNum.val, decide_eq_true_iff,
    div_le_div_iff₀ (by positivity) (by positivity)]
  constructor
  · intro h
    have h2 : ((a.m * 10 ^ b.e : Int) : ℚ) ≤ ((b.m * 10 ^ a.e : Int) : ℚ) := by
      exact_mod_cast h
    push_cast at h2
    linarith
  · intro h
    have h2 : ((a.m * 10 ^ b.e : Int) : ℚ) ≤ ((b.m * 10 ^ a.e : Int) : ℚ) := by
      push_cast
      linarith
    exact_mod_cast h2

theorem DecNum.eqB_iff (a b : DecNum) : a.eqB b = true ↔ a.val = b.val := by
  rw [DecNum.eqB, DecNum.val, DecNum.val, decide_eq_true_iff,
    div_eq_div_iff (by positivity) (by positivity)]
  constructor
  · intro h
    exact_mod_cast congrArg (Int.cast : Int → ℚ) h
  · intro h
    have : ((a.m * 10 ^ b.e : Int) : ℚ) = ((b.m * 10 ^ a.e : Int) : ℚ) := by
      push_cast at h ⊢
      linarith
    exact_mod_cast this

theorem DecNum.le_iff (a b : DecNum) : DecNum.le a b ↔ a.val ≤ b.val :=
  DecNum.leB_iff a b

instance : IsTotal DecNum DecNum.le :=
  ⟨fun a b => by
    rw [DecNum.le_iff, DecNum.le_iff]
    exact le_total a.val b.val⟩

instance : IsTrans DecNum DecNum.le :=
  ⟨fun a b c hab hbc => by
    rw [DecNum.le_iff] at *
    exact le_trans hab hbc⟩

theorem DecNum.val_ofNat (n : Nat) : (DecNum.ofNat n).val = (n : ℚ) := by
  simp [DecNum.ofNat, DecNum.val]

theorem DecNum.val_addNat (a : DecNum) (k : Nat) :
    (a.addNat k).val = a.val + (k : ℚ) := by
  have h : ((10 : ℚ) ^ a.e) ≠ 0 := by positivity
  simp only [DecNum.addNat, DecNum.val]
  push_cast
  rw [add_div, mul_div_cancel_right₀ _ h]

/-- Parse a non-empty all-digit string. -/
def parseNatDigits (l : List Char) : Option Nat :=
  if l = [] then none
  else
    l.foldl
      (fun acc c =>
        match acc with
        | none => none
        | some n => if c.isDigit then some (n * 10 + (c.toNat - '0'.toNat)) else none)
      (some 0)

/-- JS `Number(s)` on decimal literals: trims whitespace, `""` → 0,
optional sign, `digits`, `digits.digits?` or `.digits`; `none` is `NaN`. -/
def jsNumber (s : String) : Option DecNum :=
  match trimChars s.data with
  | [] => some ⟨0, 0⟩
  | t =>
    let signBody : Int × List Char :=
      match t with
      | '-' :: rest => (-1, rest)
      | '+' :: rest => (1, rest)
      | _ => (1, t)
    let sign := signBody.1
    let body := signBody.2
    let intPart := body.takeWhile (fun c => c ≠ '.')
    match body.dropWhile (fun c => c ≠ '.') with
    | [] => (parseNatDigits intPart).map (fun n => (⟨sign * n, 0⟩ : DecNum))
    | _ :: frac =>
      if frac.any (fun c => c = '.') then none
      else
        match intPart, frac with
        | [], [] => none
        | [], _ =>
          (parseNatDigits frac).map (fun fv => (⟨sign * fv, frac.length⟩ : DecNum))
        | ip, [] => (parseNatDigits ip).map (fun n => (⟨sign * n, 0⟩ : DecNum))
        | ip, _ =>
          match parseNatDigits ip, parseNatDigits frac with
          | some n, some fv =>
            some ⟨sign * (n * 10 ^ frac.length + fv), frac.length⟩
          | _, _ => none

/-- `String.prototype.split` on a character class. -/
def splitOnPredAux (p : Char → Bool) : List Char → List Char → List String
  | acc, [] => [String.mk acc.reverse]
  | acc, c :: cs =>
    if p c then String.mk acc.reverse :: splitOnPredAux p [] cs
    else splitOnPredAux p (c :: acc) cs

/-- `s.split(/[...]/)` for a character class given as a predicate. -/
def splitOnPred (p : Char → Bool) (s : String) : List String :=
  splitOnPredAux p [] s.data

/-- `for (let i = start; i <= end; i++)`: the values visited are
`start + k` for `0 ≤ k ≤ ⌊end - start⌋` (none when `start > end`);
`⌊end - start⌋` is computed by integer division. -/
def rangeValues (start stop : DecNum) : List DecNum :=
  if start.leB stop then
    let steps := ((stop.m * (10 : Int) ^ start.e - start.m * (10 : Int) ^ stop.e) /
        ((10 : Int) ^ (start.e + stop.e))).toNat
    (List.range (steps + 1)).map (fun k => start.addNat k)
  else []

/-- `Set.prototype.add` preserving first-insertion order, with the set's
value-equality. -/
def insertUniq (l : List DecNum) (x : DecNum) : List DecNum :=
  if l.any (fun y => y.eqB x) then l else l ++ [x]

/-- One token of the page-range expression (lines 360-377). -/
def addToken (totalPages : Nat) (acc : List DecNum) (part : String) : List DecNum :=
  let trimmed := String.mk (trimChars part.data)
  if trimmed = "" then acc
  else if trimmed.data.contains '-' then
    match splitOnPred (fun c => c == '-') trimmed with
    | a :: b :: _ =>
      match jsNumber a, jsNumber b with
      | some start, some stop =>
        (rangeValues start stop).foldl
          (fun ac i =>
            if (DecNum.ofNat 1).leB i && i.leB (DecNum.ofNat totalPages) then
              insertUniq ac i
            else ac)
          acc
      | _, _ => acc
    | _ => acc
  else
    match jsNumber trimmed with
    | some page =>
      if (DecNum.ofNat 1).leB page && page.leB (DecNum.ofNat totalPages) then
        insertUniq acc page
      else acc
    | none => acc

/-- `parsePageRange` (lines 352-381). -/
def parsePageRange (rangeStr : String) (totalPages : Nat) : List DecNum :=
  if rangeStr = "" ∨ rangeStr = "all" then
    List.insertionSort DecNum.le ((List.range totalPages).map (fun i => DecNum.ofNat (i + 1)))
  else
    let parts := splitOnPred (fun c => c == ',' || c == ';') rangeStr
    let pages := parts.foldl (addToken totalPages) []
    let sorted := List.insertionSort DecNum.le pages
    if sorted.length > 0 then sorted
    else (List.range totalPages).map (fun i => DecNum.ofNat (i + 1))

/-! ## The `processFile` completion/catch handlers (`App.tsx` lines 286-363) -/

/-- `DocFile`'s lifecycle status (`types.ts`).  Note: there is no distinct
"stopped"/"cancelled" constructor in the source type. -/
inductive ProcessingStatus where
  | idle
  | queued
  | processing
  | completed
  | error
  | waiting_config
deriving DecidableEq

/-- The `DocFile` fields touched by `processFile`'s outcome handlers. -/
structure DocFileM where
  content : String
  status : ProcessingStatus
  statusMessage : String
  pagesData : List (Option PageDataM)
deriving DecidableEq

/-- `App.tsx` lines 352-359, the `catch` of `processFile`: on the abort
message the content is kept and the message is "已停止" (stopped); otherwise
the content is replaced by an error text and the message is "失败"
(failed).  In both cases `status` is set to `'error'`. -/
def processFileCatch (errMsg : String) (f : DocFileM) : DocFileM :=
  let isAbort := errMsg = "Process aborted by user"
  { f with
    content := if isAbort then f.content else "处理文档时出错: " ++ errMsg,
    status := ProcessingStatus.error,
    statusMessage := if isAbort then "已停止" else "失败" }

/-- `App.tsx` lines 347-351: the success path after `processDocument`. -/
def processFileSuccess (f : DocFileM) : DocFileM :=
  { f with status := ProcessingStatus.completed, statusMessage := "完成" }

/-! ## The restoration-task join (`processDocument` lines 425-522, trace model)

The sequential OCR loop launches one background restoration task per page
with a table; `await Promise.all(restorationPromises)` (line 520) resolves
all still-pending tasks before `processDocument` returns, and `processFile`
marks the document completed only after that return.  The event-loop
nondeterminism is the schedule `sched`: task `i` resolves after loop step
`sched i` when that is possible (`i ≤ sched i < #pages`), otherwise it is
resolved by the `Promise.all` join. -/

/-- Events of one document run. -/
inductive DocEvent where
  | pageOcr (i : Nat)
  | taskLaunched (i : Nat)
  | taskResolved (i : Nat)
  | docCompleted
deriving DecidableEq

/-- Loop step `j`: OCR page `j`, launch its task if the page has a table,
then let every launched task scheduled for this step resolve. -/
def loopStepEvents (pages : List Bool) (sched : Nat → Nat) (j : Nat) : List DocEvent :=
  [DocEvent.pageOcr j]
    ++ (if pages.getD j false then [DocEvent.taskLaunched j] else [])
    ++ ((List.range (j + 1)).filter
          (fun i => pages.getD i false && sched i == j)).map DocEvent.taskResolved

/-- The sequential OCR loop (lines 429-515). -/
def pageEvents (pages : List Bool) (sched : Nat → Nat) : List DocEvent :=
  (List.range pages.length).flatMap (loopStepEvents pages sched)

/-- The `Promise.all` barrier (line 520): every launched task not resolved
during the loop resolves here. -/
def joinEvents (pages : List Bool) (sched : Nat → Nat) : List DocEvent :=
  ((List.range pages.length).filter
      (fun i => pages.getD i false &&
        !(decide (i ≤ sched i) && decide (sched i < pages.length)))).map
    DocEvent.taskResolved

/-- Everything before the document is marked completed. -/
def docPre (pages : List Bool) (sched : Nat → Nat) : List DocEvent :=
  pageEvents pages sched ++ joinEvents pages sched

/-- The whole run: the `completed` status update of `processFile` is the
final event. -/
def docTrace (pages : List Bool) (sched : Nat → Nat) : List DocEvent :=
  docPre pages sched ++ [DocEvent.docCompleted]

/-! ## Retry-loop lemmas -/

theorem ocrLoopF_attempts_le (resp : Nat → FetchResult) (ab : Option Nat) (retries : Nat) :
    ∀ fuel i waits, i + fuel = retries →
      (ocrLoopF resp ab retries fuel i waits).attempts ≤ retries := by
  intro fuel
  induction fuel with
  | zero =>
    intro i waits h
    simp only [ocrLoopF]
    omega
  | succ fuel ih =>
    intro i waits h
    have hi : i < retries := by omega
    cases habt : abortNow ab i with
    | true =>
      simp [ocrLoopF, if_pos hi, habt]
      omega
    | false =>
      cases hr : resp i with
      | ok content =>
        simp [ocrLoopF, if_pos hi, habt, hr]
        omega
      | httpErr status body =>
        simp only [ocrLoopF, if_pos hi, habt, Bool.false_eq_true, if_false, hr]
        by_cases hnext : i + 1 < retries
        · rw [if_pos hnext]
          exact ih (i + 1) _ (by omega)
        · rw [if_neg hnext]
          simp
          omega
      | netErr msg =>
        simp only [ocrLoopF, if_pos hi, habt, Bool.false_eq_true, if_false, hr]
        by_cases hnext : i + 1 < retries
        · rw [if_pos hnext]
          exact ih (i + 1) _ (by omega)
        · rw [if_neg hnext]
          simp
          omega

theorem ocrLoopF_allfail (resp : Nat → FetchResult) (retries : Nat) :
    ∀ fuel i waits, i + fuel = retries → i < retries →
      (∀ j, i ≤ j → j < retries → isFetchErr (resp j) = true) →
      ocrLoopF resp none retries fuel i waits =
        { result := CallResult.failed (fetchErrMsg (resp (retries - 1))), attempts := retries,
          waits := waits ++ (List.range' i (retries - 1 - i)).map
            (fun j => ocrWait (fetchErrMsg (resp j)) j) } := by
  intro fuel
  induction fuel with
  | zero => intro i waits h hi; omega
  | succ fuel ih =>
    intro i waits h hi hj
    have herr : isFetchErr (resp i) = true := hj i le_rfl hi
    have hab : abortNow none i = false := rfl
    cases hr : resp i with
    | ok content => rw [hr] at herr; simp [isFetchErr] at herr
    | httpErr status body =>
      simp only [ocrLoopF, if_pos hi, hab, Bool.false_eq_true, if_false, hr]
      by_cases hnext : i + 1 < retries
      · have hstep : retries - 1 - i = (retries - 1 - (i + 1)) + 1 := by omega
        rw [if_pos hnext, ih (i + 1) _ (by omega) hnext (fun j h1 h2 => hj j (by omega) h2)]
        rw [hstep, List.range'_succ]
        simp [hr]
      · have hlast : i = retries - 1 := by omega
        have hzero : retries - 1 - i = 0 := by omega
        rw [if_neg hnext, hzero]
        simp [← hlast, hr]
        omega
    | netErr msg =>
      simp only [ocrLoopF, if_pos hi, hab, Bool.false_eq_true, if_false, hr]
      by_cases hnext : i + 1 < retries
      · have hstep : retries - 1 - i = (retries - 1 - (i + 1)) + 1 := by omega
        rw [if_pos hnext, ih (i + 1) _ (by omega) hnext (fun j h1 h2 => hj j (by omega) h2)]
        rw [hstep, List.range'_succ]
        simp [hr]
      · have hlast : i = retries - 1 := by omega
        have hzero : retries - 1 - i = 0 := by omega
        rw [if_neg hnext, hzero]
        simp [← hlast, hr]
        omega

theorem ocrLoopF_abort_mid (resp : Nat → FetchResult) (a retries : Nat) :
    ∀ fuel i waits, i + fuel = retries → i ≤ a → a < retries →
      (∀ j, i ≤ j → j < a → isFetchErr (resp j) = true) →
      ocrLoopF resp (some a) retries fuel i waits =
        { result := CallResult.aborted, attempts := a,
          waits := waits ++ (List.range' i (a - i)).map
            (fun j => ocrWait (fetchErrMsg (resp j)) j) } := by
  intro fuel
  induction fuel with
  | zero => intro i waits h hia ha hj; omega
  | succ fuel ih =>
    intro i waits h hia ha hj
    have hi : i < retries := by omega
    by_cases hia2 : a ≤ i
    · have haeq : a = i := by omega
      subst haeq
      have hab : abortNow (some a) a = true := by simp [abortNow]
      simp [ocrLoopF, if_pos hi, hab]
    · have hab : abortNow (some a) i = false := by
        simp [abortNow]
        omega
      have herr : isFetchErr (resp i) = true := hj i le_rfl (by omega)
      have hnext : i + 1 < retries := by omega
      have hstep : a - i = (a - (i + 1)) + 1 := by omega
      cases hr : resp i with
      | ok content => rw [hr] at herr; simp [isFetchErr] at herr
      | httpErr status body =>
        simp only [ocrLoopF, if_pos hi, hab, Bool.false_eq_true, if_false, hr]
        rw [if_pos hnext, ih (i + 1) _ (by omega) (by omega) ha
          (fun j h1 h2 => hj j (by omega) h2)]
        rw [hstep, List.range'_succ]
        simp [hr]
      | netErr msg =>
        simp only [ocrLoopF, if_pos hi, hab, Bool.false_eq_true, if_false, hr]
        rw [if_pos hnext, ih (i + 1) _ (by omega) (by omega) ha
          (fun j h1 h2 => hj j (by omega) h2)]
        rw [hstep, List.range'_succ]
        simp [hr]

theorem segLoopF_requests_le (resp : Nat → RestoreResp) (retries : Nat) (tbl : String) :
    ∀ fuel i, i + fuel = retries →
      (segLoopF resp none retries tbl fuel i).requests ≤ retries := by
  intro fuel
  induction fuel with
  | zero => intro i h; simp only [segLoopF]; omega
  | succ fuel ih =>
    intro i h
    have hi : i < retries := by omega
    have hab : abortNow none i = false := rfl
    cases hr : resp i with
    | ok content =>
      simp [segLoopF, if_pos hi, hab, hr]
      omega
    | err msg =>
      simp only [segLoopF, if_pos hi, hab, Bool.false_eq_true, if_false, hr]
      by_cases hlast : i = retries - 1
      · rw [if_pos hlast]
        simp
        omega
      · rw [if_neg hlast]
        exact ih (i + 1) (by omega)

theorem segLoopF_allfail (resp : Nat → RestoreResp) (retries : Nat) (tbl : String) :
    ∀ fuel i, i + fuel = retries → i < retries →
      (∀ j, i ≤ j → j < retries → isErrResp (resp j) = true) →
      segLoopF resp none retries tbl fuel i =
        { text := tbl, requests := retries, kept := none, aborted := false } := by
  intro fuel
  induction fuel with
  | zero => intro i h hi; omega
  | succ fuel ih =>
    intro i h hi hj
    have herr : isErrResp (resp i) = true := hj i le_rfl hi
    have hab : abortNow none i = false := rfl
    cases hr : resp i with
    | ok content => rw [hr] at herr; simp [isErrResp] at herr
    | err msg =>
      simp only [segLoopF, if_pos hi, hab, Bool.false_eq_true, if_false, hr]
      by_cases hlast : i = retries - 1
      · rw [if_pos hlast]
        simp
        omega
      · rw [if_neg hlast]
        exact ih (i + 1) (by omega) (by omega) (fun j h1 h2 => hj j (by omega) h2)

/-! ## Miscellaneous helper lemmas -/

theorem stringMk_data (s : String) : String.mk s.data = s := rfl

/-- Raw text without a complete table block: the split has one part and the
restorer returns the text unchanged, issuing no network request. -/
theorem callLayout_single {raw : String} (h : findMatch raw.data = none)
    (oracle : Nat → Nat → RestoreResp) :
    callLayoutRestorationModel oracle raw =
      { content := raw, hasRealTable := false, cleaned := false, requests := 0 } := by
  have hsplit : segmentParts raw = [raw] := by
    rw [segmentParts, splitTables_of_none h]
    simp [stringMk_data]
  simp [callLayoutRestorationModel, hsplit]

/-- With at least one complete table block, the restorer's output is the
processed parts joined in original order. -/
theorem callLayout_content (oracle : Nat → Nat → RestoreResp) (raw : String)
    (h : ¬ (segmentParts raw).length ≤ 1) :
    (callLayoutRestorationModel oracle raw).content =
      String.join ((segmentParts raw).enum.map (fun ip => (processSegPart oracle ip).text)) := by
  simp only [callLayoutRestorationModel, if_neg h, List.map_map]
  rfl

theorem pageChunk_eq_spec (mode : ViewMode) (i : Nat) (pd : PageDataM)
    (h : pd.status ≠ PageStatus.error) :
    pageChunk mode i (some pd) = specPageText mode pd := by
  simp only [pageChunk, if_neg h]
  cases mode with
  | raw => rfl
  | restored =>
    cases hre : pd.restored with
    | none => simp [specPageText, jsOrS, hre]
    | some r =>
      by_cases hr : r = ""
      · simp [specPageText, jsOrS, hre, hr]
      · simp [specPageText, jsOrS, hre, hr]

theorem buildChunks_eq_spec (mode : ViewMode) (pages : List PageDataM)
    (h : ∀ pd ∈ pages, pd.status ≠ PageStatus.error) :
    ∀ i, buildChunks mode i (pages.map some) = pages.map (specPageText mode) := by
  induction pages with
  | nil => intro i; rfl
  | cons pd ps ih =>
    intro i
    simp only [List.map_cons, buildChunks]
    rw [pageChunk_eq_spec mode i pd (h pd (by simp)),
      ih (fun q hq => h q (by simp [hq])) (i + 1)]

/-! ## Invariants of `parsePageRange` -/

/-- The collected page set: every element in value range `[1, N]`, pairwise
distinct values. -/
def GoodList (N : Nat) (l : List DecNum) : Prop :=
  (∀ x ∈ l, 1 ≤ x.val ∧ x.val ≤ (N : ℚ)) ∧
    List.Pairwise (fun a b => a.val ≠ b.val) l

theorem goodList_nil (N : Nat) : GoodList N [] := ⟨by simp, by simp⟩

theorem insertUniq_good {N : Nat} {l : List DecNum} {x : DecNum} (hg : GoodList N l)
    (h1 : 1 ≤ x.val) (h2 : x.val ≤ (N : ℚ)) : GoodList N (insertUniq l x) := by
  unfold insertUniq
  by_cases hmem : l.any (fun y => y.eqB x) = true
  · rw [if_pos hmem]; exact hg
  · rw [if_neg hmem]
    constructor
    · intro z hz
      rcases List.mem_append.mp hz with hzl | hzx
      · exact hg.1 z hzl
      · rw [List.mem_singleton.mp hzx]; exact ⟨h1, h2⟩
    · rw [List.pairwise_append]
      refine ⟨hg.2, by simp, ?_⟩
      intro a ha b hb
      rw [List.mem_singleton.mp hb]
      intro hval
      apply hmem
      rw [List.any_eq_true]
      exact ⟨a, ha, (DecNum.eqB_iff a x).mpr hval⟩

theorem foldl_insert_good {N : Nat} (l : List DecNum) :
    ∀ acc, GoodList N acc →
      GoodList N (l.foldl
        (fun ac i =>
          if (DecNum.ofNat 1).leB i && i.leB (DecNum.ofNat N) then insertUniq ac i else ac)
        acc) := by
  induction l with
  | nil => intro acc hg; exact hg
  | cons y ys ih =>
    intro acc hg
    simp only [List.foldl_cons]
    by_cases hc : ((DecNum.ofNat 1).leB y && y.leB (DecNum.ofNat N)) = true
    · rw [if_pos hc]
      have hb := Bool.and_eq_true_iff.mp hc
      have hb1 : (1 : ℚ) ≤ y.val := by
        have := (DecNum.leB_iff _ _).mp hb.1
        rwa [DecNum.val_ofNat, Nat.cast_one] at this
      have hb2 : y.val ≤ (N : ℚ) := by
        have := (DecNum.leB_iff _ _).mp hb.2
        rwa [DecNum.val_ofNat] at this
      exact ih _ (insertUniq_good hg hb1 hb2)
    · rw [if_neg hc]
      exact ih _ hg

theorem addToken_good {N : Nat} {acc : List DecNum} (part : String) (hg : GoodList N acc) :
    GoodList N (addToken N acc part) := by
  unfold addToken
  by_cases he : String.mk (trimChars part.data) = ""
  · rw [if_pos he]; exact hg
  · rw [if_neg he]
    by_cases hd : (String.mk (trimChars part.data)).data.contains '-' = true
    · rw [if_pos hd]
      cases hsp : splitOnPred (fun c => c == '-') (String.mk (trimChars part.data)) with
      | nil => exact hg
      | cons a rest =>
        cases rest with
        | nil => exact hg
        | cons b rest2 =>
          cases hna : jsNumber a with
          | none => simp [hna]; exact hg
          | some start =>
            cases hnb : jsNumber b with
            | none => simp [hna, hnb]; exact hg
            | some stop =>
              simp only [hna, hnb]
              exact foldl_insert_good _ acc hg
    · rw [if_neg hd]
      cases hn : jsNumber (String.mk (trimChars part.data)) with
      | none => exact hg
      | some page =>
        simp only
        by_cases hc : ((DecNum.ofNat 1).leB page && page.leB (DecNum.ofNat N)) = true
        · rw [if_pos hc]
          have hb := Bool.and_eq_true_iff.mp hc
          have hb1 : (1 : ℚ) ≤ page.val := by
            have := (DecNum.leB_iff _ _).mp hb.1
            rwa [DecNum.val_ofNat, Nat.cast_one] at this
          have hb2 : page.val ≤ (N : ℚ) := by
            have := (DecNum.leB_iff _ _).mp hb.2
            rwa [DecNum.val_ofNat] at this
          exact insertUniq_good hg hb1 hb2
        · rw [if_neg hc]
          exact hg

theorem foldl_addToken_good {N : Nat} (parts : List String) :
    ∀ acc, GoodList N acc → GoodList N (parts.foldl (addToken N) acc) := by
  induction parts with
  | nil => intro acc hg; exact hg
  | cons p ps ih =>
    intro acc hg
    simp only [List.foldl_cons]
    exact ih _ (addToken_good p hg)

/-- The full-range list `[1..N]` used by the `all` and fallback branches. -/
theorem fullRange_good (N : Nat) :
    GoodList N ((List.range N).map (fun i => DecNum.ofNat (i + 1))) := by
  constructor
  · intro x hx
    obtain ⟨i, hi, hix⟩ := List.mem_map.mp hx
    rw [← hix, DecNum.val_ofNat]
    have hiN := List.mem_range.mp hi
    constructor
    · exact_mod_cast Nat.succ_le_succ (Nat.zero_le i)
    · exact_mod_cast hiN
  · refine List.Pairwise.map _ ?_ (List.pairwise_lt_range N)
    intro a b hab
    rw [DecNum.val_ofNat, DecNum.val_ofNat]
    intro hcast
    have : a + 1 = b + 1 := by exact_mod_cast hcast
    omega

theorem fullRange_sorted (N : Nat) :
    List.Sorted (· ≤ ·)
      (((List.range N).map (fun i => DecNum.ofNat (i + 1))).map DecNum.val) := by
  rw [List.map_map]
  refine List.Pairwise.map _ ?_ (List.pairwise_lt_range N)
  intro a b hab
  simp only [Function.comp_apply, DecNum.val_ofNat]
  exact_mod_cast Nat.le_of_lt (Nat.succ_lt_succ hab)

theorem sorted_val_of_sorted_le {l : List DecNum} (h : List.Sorted DecNum.le l) :
    List.Sorted (· ≤ ·) (l.map DecNum.val) :=
  List.Pairwise.map _ (fun a b hab => (DecNum.le_iff a b).mp hab) h

theorem goodList_of_perm {N : Nat} {l l' : List DecNum} (hperm : l.Perm l')
    (hg : GoodList N l) : GoodList N l' := by
  constructor
  · intro x hx
    exact hg.1 x (hperm.mem_iff.mpr hx)
  · exact (hperm.pairwise_iff (fun hxy => hxy ∘ Eq.symm)).mp hg.2

/-! ## Claim theorems -/

/-- C1 (amended): the OCR Caller makes at most 5 attempts per call; a
429-equivalent failure backs off `5000ms × (attemptIndex + 1)` and any
other failure — including a 401-equivalent, which contrary to the original
claim is *not* fatal, since `callOcrModel`'s own `catch` swallows the
"Invalid API Key" throw — backs off `1000ms × 2^attemptIndex`; after
exhausting all attempts the last error is raised to the caller.  In
particular five consecutive 401 responses produce five attempts, four
standard backoffs, and the final "Invalid API Key" failure. -/
theorem c1_ocr_retry_policy (resp : Nat → FetchResult) :
    (callOcrModel resp none).attempts ≤ 5 ∧
    ((∀ j, j < 5 → isFetchErr (resp j) = true) →
      callOcrModel resp none =
        { result := CallResult.failed (fetchErrMsg (resp 4)), attempts := 5,
          waits := (List.range 4).map (fun i =>
            if contains429 (fetchErrMsg (resp i)) then 5000 * (i + 1) else 1000 * 2 ^ i) }) ∧
    (∀ body, (∀ j, j < 5 → resp j = FetchResult.httpErr 401 body) →
      (callOcrModel resp none).result = CallResult.failed "Invalid API Key" ∧
      (callOcrModel resp none).attempts = 5) := by
  refine ⟨?_, ?_, ?_⟩
  · exact ocrLoopF_attempts_le resp none 5 5 0 [] rfl
  · intro hj
    have h := ocrLoopF_allfail resp 5 5 0 [] rfl (by omega) (fun j _ h2 => hj j h2)
    unfold callOcrModel
    rw [h]
    simp [ocrWait, List.range_eq_range']
  · intro body hb
    have hj : ∀ j, j < 5 → isFetchErr (resp j) = true := fun j hjj => by
      rw [hb j hjj]; rfl
    have h := ocrLoopF_allfail resp 5 5 0 [] rfl (by omega) (fun j _ h2 => hj j h2)
    unfold callOcrModel
    rw [h]
    refine ⟨?_, rfl⟩
    simp [hb 4 (by omega)]
    rfl

/-- C1 counterexample: the claim as stated says a 401-equivalent response
"is fatal and aborts immediately with no further retry"; but a run whose
every response is a 401 issues all 5 attempts and performs 4 standard
exponential backoffs before failing — the 401 throw is caught by the loop's
own catch and retried. -/
theorem c1_counterexample :
    callOcrModel (fun _ => FetchResult.httpErr 401 none) none =
      { result := CallResult.failed "Invalid API Key", attempts := 5,
        waits := [1000, 2000, 4000, 8000] } := by decide

/-- C1 witness: a run of five 429 responses exercises the amended policy
concretely: 5 attempts, extended backoffs 5000·1 … 5000·4, failure with the
rate-limit message. -/
theorem c1_ocr_retry_policy_witness :
    callOcrModel (fun _ => FetchResult.httpErr 429 none) none =
      { result := CallResult.failed "API Error: 429 Rate Limit Exceeded", attempts := 5,
        waits := [5000, 10000, 15000, 20000] } := by
  have h := (c1_ocr_retry_policy (fun _ => FetchResult.httpErr 429 none)).2.1 (by decide)
  exact h.trans (by decide)

/-- C2 (amended): when the cancellation token triggers, every outstanding
OCR/restoration call stops retrying and resolves as the distinct aborted
outcome (never as a failure), and the `processFile` catch handler keeps the
document's content and per-page data untouched; but the document's status
is set to the shared `error` state — the `ProcessingStatus` type has no
distinct "stopped" constructor — with only the status *message* "已停止"
distinguishing a stop from a failure's "失败". -/
theorem c2_cancellation_behaviour (resp : Nat → FetchResult) (oracle : Nat → RestoreResp)
    (a : Nat) (ha : a < 5) (herr : ∀ j, j < a → isFetchErr (resp j) = true)
    (f : DocFileM) (tbl : String) :
    (callOcrModel resp (some a)).result = CallResult.aborted ∧
    (callOcrModel resp (some a)).attempts = a ∧
    segLoopF oracle (some 0) 3 tbl 3 0 =
      { text := "", requests := 0, kept := none, aborted := true } ∧
    processFileCatch "Process aborted by user" f =
      { f with
        status := ProcessingStatus.error,
        statusMessage := "已停止" } ∧
    (∀ m, m ≠ "Process aborted by user" →
      processFileCatch m f =
        { f with
          content := "处理文档时出错: " ++ m,
          status := ProcessingStatus.error,
          statusMessage := "失败" }) := by
  have h := ocrLoopF_abort_mid resp a 5 5 0 [] rfl (by omega) ha (fun j _ h2 => herr j h2)
  refine ⟨?_, ?_, rfl, ?_, ?_⟩
  · unfold callOcrModel
    rw [h]
  · unfold callOcrModel
    rw [h]
  · simp [processFileCatch]
  · intro m hm
    simp [processFileCatch, hm]

/-- C2 counterexample: the claim as stated requires the document's status to
be set to a distinct "stopped" state, not "error"; but on the abort message
the `processFile` catch handler sets `status = error` (the source's
`ProcessingStatus` union has no stopped member), so cancellation surfaces
under the error status. -/
theorem c2_counterexample :
    (processFileCatch "Process aborted by user"
        { content := "old", status := ProcessingStatus.processing,
          statusMessage := "处理中", pagesData := [] }).status =
      ProcessingStatus.error := by decide

/-- C2 witness: with abort arriving before attempt 2 and two failing
responses first, the OCR call resolves as aborted after exactly 2 attempts,
and the catch handler on the abort message keeps content and pages. -/
theorem c2_cancellation_witness :
    (callOcrModel (fun _ => FetchResult.httpErr 429 none) (some 2)).result =
      CallResult.aborted ∧
    (callOcrModel (fun _ => FetchResult.httpErr 429 none) (some 2)).attempts = 2 := by
  have h := c2_cancellation_behaviour (fun _ => FetchResult.httpErr 429 none)
    (fun _ => RestoreResp.err "x") 2 (by decide) (by decide)
    { content := "c", status := ProcessingStatus.processing, statusMessage := "",
      pagesData := [] } "t"
  exact ⟨h.1, h.2.1⟩

/-- C3: the Table Segmenter (the split on the case-insensitive
`<table...>...</table>` regex with a capture group) produces pieces that
alternate plain (even index) and table (odd index) kind; every odd-indexed
piece is exactly a matched table block (it re-matches itself in full);
concatenating all pieces reproduces the input byte for byte; an input with
no table block is returned unchanged as a single plain piece; and the
five-segment example of the claim holds. -/
theorem c3_table_segmenter :
    (∀ s : List Char, (splitTables s).flatten = s) ∧
    (∀ s : List Char, findMatch s = none → splitTables s = [s]) ∧
    (∀ s : List Char, ∀ i m, (splitTables s)[i]? = some m → i % 2 = 1 →
      tryMatchAt m = some (m, [])) ∧
    segmentParts "A<table>X</table>B<table>Y</table>C" =
      ["A", "<table>X</table>", "B", "<table>Y</table>", "C"] :=
  ⟨splitTables_flatten, fun _ h => splitTables_of_none h,
    fun s => splitTables_odd_block s, by decide⟩

/-- C3 witness: the no-table clause at a concrete input, and the
block-exactness clause at the captured block of a concrete split. -/
theorem c3_table_segmenter_witness :
    splitTables "no tables here".data = ["no tables here".data] ∧
    tryMatchAt "<table>X</table>".data = some ("<table>X</table>".data, []) :=
  ⟨c3_table_segmenter.2.1 "no tables here".data (by decide),
    c3_table_segmenter.2.2.1 "A<table>X</table>".data 1 "<table>X</table>".data
      (by decide) (by decide)⟩

/-- C4 (amended): each part of the split that begins with `<table`
(case-insensitively) is driven through the Restoration Caller with at most 3
attempts; if every attempt fails the part resolves to its original,
unmodified HTML; parts that do not begin with `<table` are kept verbatim;
and the page's final content is the parts in original order, each replaced
by its resolved output, concatenated.  (The original claim's stronger
promise — every *plain* segment verbatim — fails: a trailing plain piece
that begins with `<table` but is not a complete block is also sent to the
model; see the counterexample.) -/
theorem c4_restoration_caller (oracle : Nat → Nat → RestoreResp) (raw : String)
    (idx : Nat) (tbl part : String)
    (hparts : ¬ (segmentParts raw).length ≤ 1) :
    (callLayoutRestorationModel oracle raw).content =
      String.join ((segmentParts raw).enum.map (fun ip => (processSegPart oracle ip).text)) ∧
    (segLoopF (oracle idx) none 3 tbl 3 0).requests ≤ 3 ∧
    ((∀ j, j < 3 → isErrResp (oracle idx j) = true) →
      segLoopF (oracle idx) none 3 tbl 3 0 =
        { text := tbl, requests := 3, kept := none, aborted := false }) ∧
    (startsWithTableCI part = false → (processSegPart oracle (idx, part)).text = part) := by
  refine ⟨callLayout_content oracle raw hparts, ?_, ?_, ?_⟩
  · exact segLoopF_requests_le (oracle idx) 3 tbl 3 0 rfl
  · intro hj
    exact segLoopF_allfail (oracle idx) 3 tbl 3 0 rfl (by omega) (fun j _ h2 => hj j h2)
  · intro hp
    simp [processSegPart, hp]

/-- The oracle of the C4 counterexample: the model rewrites segment 1 to
"T1" and every other segment to "W". -/
def c4Oracle : Nat → Nat → RestoreResp := fun idx _ =>
  RestoreResp.ok (if idx = 1 then "T1" else "W")

/-- C4 counterexample: on `"A<table>X</table><table z"` the split yields the
plain pieces `"A"` and `"<table z"` around one table block; `"<table z"` is
a plain segment (no complete block), yet because it begins with `<table`
the code sends it to the model too, and the final content `"AT1W"` differs
from the claim's required `"A" ++ "T1" ++ "<table z"` — the plain segment
was not kept verbatim (its text `z` was dropped). -/
theorem c4_counterexample :
    segmentParts "A<table>X</table><table z" = ["A", "<table>X</table>", "<table z"] ∧
    (callLayoutRestorationModel c4Oracle "A<table>X</table><table z").content = "AT1W" ∧
    "AT1W" ≠ "A" ++ "T1" ++ "<table z" :=
  ⟨by decide, by decide, by decide⟩

/-- C4 witness: with an always-failing oracle, the retry loop for a concrete
table block stops after exactly 3 requests and falls back to the original
HTML. -/
theorem c4_restoration_caller_witness :
    segLoopF ((fun _ _ => RestoreResp.err "boom") 0) none 3 "<table>X</table>" 3 0 =
      { text := "<table>X</table>", requests := 3, kept := none, aborted := false } := by
  have h := c4_restoration_caller (fun _ _ => RestoreResp.err "boom") "A<table>X</table>B" 0
    "<table>X</table>" "B" (by decide)
  exact h.2.2.1 (by decide)

/-- C5: a page whose raw OCR text contains no `<table` occurrence emits the
raw-OCR update followed by a single terminal update with status=complete and
verificationResult.hasTable=false, never invokes the Restoration Caller, and
issues zero restoration requests. -/
theorem c5_no_table_skips_restoration (raw : String) (oracle : Nat → Nat → RestoreResp)
    (h : containsTableCI raw = false) :
    processPageAfterOcr raw oracle =
      { patches := [ocrSuccessPatch raw, noTablePatch], requests := 0,
        invokedRestorer := false } ∧
    noTablePatch.status = some PageStatus.complete ∧
    noTablePatch.hasTable = some false := by
  refine ⟨?_, rfl, rfl⟩
  simp [processPageAfterOcr, h]

/-- C5 witness: a concrete table-free page completes without restoration. -/
theorem c5_no_table_witness :
    processPageAfterOcr "第一条 本保险合同" (fun _ _ => RestoreResp.err "x") =
      { patches := [ocrSuccessPatch "第一条 本保险合同", noTablePatch], requests := 0,
        invokedRestorer := false } :=
  (c5_no_table_skips_restoration "第一条 本保险合同" (fun _ _ => RestoreResp.err "x")
    (by decide)).1

/-- C6 (amended): for pages that are present and not in the error state, the
reconstructed document equals the per-page texts — restored if non-null and
non-empty, else rawOCR, in restored view mode; rawOCR exclusively in raw
view mode — joined by the fixed page-separator token; in particular a page
with restored=null contributes exactly its rawOCR in restored mode.  (The
original claim's "always" fails: a page in the error state contributes an
error banner instead; see the counterexample.) -/
theorem c6_reconstruct_content (mode : ViewMode) (pages : List PageDataM)
    (hok : ∀ pd ∈ pages, pd.status ≠ PageStatus.error) :
    reconstructContent mode (pages.map some) =
      joinSep pageSep (pages.map (specPageText mode)) ∧
    (∀ i pd, pd.status ≠ PageStatus.error → pd.restored = none → pd.rawOCR ≠ "" →
      pageChunk ViewMode.restored i (some pd) = pd.rawOCR) := by
  constructor
  · rw [reconstructContent, buildChunks_eq_spec mode pages hok 0]
  · intro i pd hst hre _hraw
    rw [pageChunk_eq_spec ViewMode.restored i pd hst]
    simp [specPageText, hre]

/-- The error-state page of the C6 counterexample. -/
def c6PageErr : PageDataM :=
  { rawOCR := "R", restored := none, status := PageStatus.error, errorMessage := "boom" }

/-- C6 counterexample: the claim as stated says the reconstructed text
"always" equals the concatenation of restored-else-raw page text; but a page
with status=error and non-empty rawOCR contributes an error banner, not its
rawOCR, so the reconstruction differs from the claimed value "R". -/
theorem c6_counterexample :
    reconstructContent ViewMode.restored [some c6PageErr] = "> ⚠️ **Page 1 Error**: boom" ∧
    c6PageErr.restored = none ∧
    c6PageErr.rawOCR = "R" ∧
    reconstructContent ViewMode.restored [some c6PageErr] ≠ "R" :=
  ⟨by decide, rfl, rfl, by decide⟩

/-- The ordinary page of the C6 witness. -/
def c6PageOk : PageDataM :=
  { rawOCR := "R", restored := none, status := PageStatus.complete, errorMessage := "" }

/-- C6 witness: the amended reconstruction equality and the restored=null
fallback, at a concrete one-page document. -/
theorem c6_reconstruct_witness :
    reconstructContent ViewMode.restored [some c6PageOk] =
      joinSep pageSep [specPageText ViewMode.restored c6PageOk] ∧
    pageChunk ViewMode.restored 0 (some c6PageOk) = "R" := by
  have h := c6_reconstruct_content ViewMode.restored [c6PageOk] (by decide)
  exact ⟨h.1, h.2 0 c6PageOk (by decide) (by decide) (by decide)⟩

/-- C7: in the trace model of `processDocument` (sequential OCR loop
launching background restoration tasks, then `await Promise.all` before
returning, after which `processFile` marks the document completed), the
completed event is the last event of every run, and every launched
restoration task has resolved before it, whatever the completion schedule of
the background tasks. -/
theorem c7_tasks_joined_before_complete (pages : List Bool) (sched : Nat → Nat) (i : Nat)
    (h : DocEvent.taskLaunched i ∈ docPre pages sched) :
    DocEvent.taskResolved i ∈ docPre pages sched ∧
    docTrace pages sched = docPre pages sched ++ [DocEvent.docCompleted] := by
  refine ⟨?_, rfl⟩
  have hmem : DocEvent.taskLaunched i ∈ pageEvents pages sched := by
    rcases List.mem_append.mp h with h1 | h2
    · exact h1
    · exfalso
      obtain ⟨j, _, hj⟩ := List.mem_map.mp h2
      simp at hj
  obtain ⟨j, hjr, hjmem⟩ := List.mem_flatMap.mp hmem
  have hji : pages.getD j false = true ∧ i = j := by
    simp only [loopStepEvents, List.mem_append, List.mem_singleton] at hjmem
    rcases hjmem with (h1 | h2) | h3
    · exact absurd h1 (by simp)
    · by_cases hp : pages.getD j false = true
      · rw [if_pos hp] at h2
        simp at h2
        exact ⟨hp, h2⟩
      · rw [if_neg hp] at h2
        simp at h2
    · exfalso
      obtain ⟨x, _, hx⟩ := List.mem_map.mp h3
      simp at hx
  have hp := hji.1
  have hieq := hji.2
  subst hieq
  have hin : i < pages.length := List.mem_range.mp hjr
  by_cases hcase : i ≤ sched i ∧ sched i < pages.length
  · refine List.mem_append.mpr (Or.inl ?_)
    refine List.mem_flatMap.mpr ⟨sched i, List.mem_range.mpr hcase.2, ?_⟩
    refine List.mem_append.mpr (Or.inr ?_)
    refine List.mem_map.mpr ⟨i, ?_, rfl⟩
    refine List.mem_filter.mpr ⟨List.mem_range.mpr (by omega), ?_⟩
    simp only [beq_self_eq_true, Bool.and_true]
    exact hp
  · refine List.mem_append.mpr (Or.inr ?_)
    refine List.mem_map.mpr ⟨i, ?_, rfl⟩
    refine List.mem_filter.mpr ⟨List.mem_range.mpr hin, ?_⟩
    simp only [hp, Bool.true_and, Bool.not_eq_true']
    rw [Bool.and_eq_false_iff]
    by_cases hc1 : i ≤ sched i
    · right
      simp only [decide_eq_false_iff_not]
      intro hc2
      exact hcase ⟨hc1, hc2⟩
    · left
      simp [hc1]

/-- C7 witness: a one-page document with a table, task scheduled to resolve
during the loop: the task's resolution is in the pre-completion trace. -/
theorem c7_tasks_joined_witness :
    DocEvent.taskResolved 0 ∈ docPre [true] (fun _ => 0) :=
  (c7_tasks_joined_before_complete [true] (fun _ => 0) 0 (by decide)).1

/-- The structural invariants of every `parsePageRange` result: sorted by
value, values within `[1, N]` and pairwise distinct, never empty. -/
theorem parsePageRange_good (s : String) (N : Nat) (hN : 1 ≤ N) :
    List.Sorted DecNum.le (parsePageRange s N) ∧ GoodList N (parsePageRange s N) ∧
      parsePageRange s N ≠ [] := by
  unfold parsePageRange
  by_cases hb : s = "" ∨ s = "all"
  · rw [if_pos hb]
    refine ⟨List.sorted_insertionSort _ _,
      goodList_of_perm (List.perm_insertionSort _ _).symm (fullRange_good N), ?_⟩
    intro hnil
    have hlen := (List.perm_insertionSort DecNum.le
      ((List.range N).map (fun i => DecNum.ofNat (i + 1)))).length_eq
    rw [hnil] at hlen
    simp at hlen
    omega
  · rw [if_neg hb]
    dsimp only
    have hgood : GoodList N ((splitOnPred (fun c => c == ',' || c == ';') s).foldl
        (addToken N) []) :=
      foldl_addToken_good _ [] (goodList_nil N)
    by_cases hlen : (List.insertionSort DecNum.le
        ((splitOnPred (fun c => c == ',' || c == ';') s).foldl (addToken N) [])).length > 0
    · rw [if_pos hlen]
      exact ⟨List.sorted_insertionSort _ _,
        goodList_of_perm (List.perm_insertionSort _ _).symm hgood,
        List.ne_nil_of_length_pos hlen⟩
    · rw [if_neg hlen]
      refine ⟨?_, fullRange_good N, ?_⟩
      · refine List.Pairwise.map _ ?_ (List.pairwise_lt_range N)
        intro a b hab
        rw [DecNum.le_iff, DecNum.val_ofNat, DecNum.val_ofNat]
        exact_mod_cast Nat.le_of_lt (Nat.succ_lt_succ hab)
      · apply List.ne_nil_of_length_pos
        simp
        omega

/-- C8 (amended): for every expression and page count `N ≥ 1` the resolver
returns, without raising, a list sorted ascending by value, with pairwise
distinct values all within `[1, N]`, never empty (empty parses fall back to
the full range), and the claim's two examples hold.  (The original claim's
"list of integers" fails: `Number` parses decimal fractions, so a token like
`"1.5"` contributes a non-integer value; see the counterexample.) -/
theorem c8_page_range_resolver (s : String) (N : Nat) (hN : 1 ≤ N) :
    List.Sorted (· ≤ ·) ((parsePageRange s N).map DecNum.val) ∧
    ((parsePageRange s N).map DecNum.val).Nodup ∧
    (∀ q ∈ (parsePageRange s N).map DecNum.val, 1 ≤ q ∧ q ≤ (N : ℚ)) ∧
    parsePageRange s N ≠ [] ∧
    (parsePageRange "1,3-5,8" 10).map DecNum.val = [1, 3, 4, 5, 8] ∧
    (parsePageRange "99" 3).map DecNum.val = [1, 2, 3] := by
  obtain ⟨hsort, hgood, hne⟩ := parsePageRange_good s N hN
  refine ⟨sorted_val_of_sorted_le hsort, ?_, ?_, hne, ?_, ?_⟩
  · exact List.pairwise_map.mpr hgood.2
  · intro q hq
    obtain ⟨x, hx, hxq⟩ := List.mem_map.mp hq
    rw [← hxq]
    exact hgood.1 x hx
  · rw [show parsePageRange "1,3-5,8" 10 =
      [⟨1, 0⟩, ⟨3, 0⟩, ⟨4, 0⟩, ⟨5, 0⟩, ⟨8, 0⟩] from by decide]
    norm_num [DecNum.val]
  · rw [show parsePageRange "99" 3 = [⟨1, 0⟩, ⟨2, 0⟩, ⟨3, 0⟩] from by decide]
    norm_num [DecNum.val]

/-- C8 counterexample: the claim as stated says the resolver returns a list
of unique *integers* and drops non-numeric tokens; but `Number("1.5")` is
the non-NaN value 1.5, which lies in `[1, 3]` and is kept, so
`parsePageRange "1.5" 3` is the singleton 3/2 — not an integer. -/
theorem c8_counterexample :
    parsePageRange "1.5" 3 = [⟨15, 1⟩] ∧
    (¬ ∃ n : ℤ, DecNum.val ⟨15, 1⟩ = (n : ℚ)) ∧
    DecNum.val ⟨15, 1⟩ = 3 / 2 := by
  refine ⟨by decide, ?_, by norm_num [DecNum.val]⟩
  rintro ⟨n, hn⟩
  rw [show DecNum.val ⟨15, 1⟩ = 3 / 2 from by norm_num [DecNum.val]] at hn
  have h2 : (3 : ℚ) = 2 * (n : ℚ) := by linarith
  have h3 : (3 : ℤ) = 2 * n := by exact_mod_cast h2
  omega

/-- C8 witness: the invariants at a concrete out-of-order expression. -/
theorem c8_page_range_witness :
    parsePageRange "2,1" 3 ≠ [] ∧
    List.Sorted (· ≤ ·) ((parsePageRange "2,1" 3).map DecNum.val) := by
  have h := c8_page_range_resolver "2,1" 3 (by decide)
  exact ⟨h.2.2.2.1, h.1⟩

/-- The OCR response of the C9 run: a fenced body carrying `<|det|>` and
`<|box|>` markers. -/
def c9Resp : Nat → FetchResult := fun _ =>
  FetchResult.ok "```markdown\n<|det|>coords<|/det|>hello <|box|>world\n```"

/-- C9: the OCR Caller strips the Markdown code fences but does *not* strip
the `<|det|>...</|det|>` / `<|box|>` bounding-box markers — the helper
`cleanOcrNoise` (geminiService.ts lines 116-129), which would remove them
(third conjunct), has no call site anywhere in the repository, so the
returned text still contains the markers, contradicting the claim and the
helper's own stated purpose. -/
theorem c9_markers_not_stripped :
    (callOcrModel c9Resp none).result =
      CallResult.content "<|det|>coords<|/det|>hello <|box|>world" ∧
    hasSub "<|det|>coords<|/det|>hello <|box|>world".data "<|box|>".data = true ∧
    cleanOcrNoise "<|det|>coords<|/det|>hello <|box|>world" = "hello world" :=
  ⟨by decide, by decide, by decide⟩

/-- C10: a page whose raw OCR contains `<table` (case-insensitively) but no
complete `<table>...</table>` block still transitions to status=restoring,
yet the restoration step's split yields a single part and returns the raw
text unchanged with zero network requests, and the page completes with
restored = rawOCR and verificationResult.hasTable = false. -/
theorem c10_incomplete_table_tag (raw : String) (oracle : Nat → Nat → RestoreResp)
    (h1 : containsTableCI raw = true) (h2 : findMatch raw.data = none) :
    processPageAfterOcr raw oracle =
      { patches := [ocrSuccessPatch raw, restoringPatch, restoredPatch raw false false],
        requests := 0, invokedRestorer := true } ∧
    (restoredPatch raw false false).restored = some (some raw) ∧
    (restoredPatch raw false false).status = some PageStatus.complete ∧
    (restoredPatch raw false false).hasTable = some false := by
  have hr := callLayout_single h2 oracle
  refine ⟨?_, rfl, rfl, rfl⟩
  simp [processPageAfterOcr, h1, hr]

/-- C10 witness: the concrete page text `"x<table y"` (a dangling `<table`
with no closing tag). -/
theorem c10_incomplete_table_witness :
    processPageAfterOcr "x<table y" (fun _ _ => RestoreResp.err "z") =
      { patches := [ocrSuccessPatch "x<table y", restoringPatch,
          restoredPatch "x<table y" false false],
        requests := 0, invokedRestorer := true } :=
  (c10_incomplete_table_tag "x<table y" (fun _ _ => RestoreResp.err "z")
    (by decide) (by decide)).1
